import Mathlib

/-!
Verification of the company-deep-research pipeline core
(`backend/nodes/briefing.py`, `backend/nodes/editor.py`).

Python strings are modelled as lists of characters (`Str`), machine
floats produced by `float(...)` as rationals, fallible Python code as
`Except`-valued functions, and the language-model backend as an explicit
parameter describing the outcome of each call.
-/

namespace DeepResearch

/-- Python strings, modelled as lists of characters. -/
abbrev Str := List Char

/-- The characters removed by Python's default `str.strip()`. -/
def isPySpace (c : Char) : Bool :=
  c = ' ' || c = '\t' || c = '\n' || c = '\r' || c = '\x0b' || c = '\x0c'

/-- Drop leading whitespace. -/
def pyLTrim (s : Str) : Str := s.dropWhile isPySpace

/-- Drop trailing whitespace. -/
def pyRTrim (s : Str) : Str := (s.reverse.dropWhile isPySpace).reverse

/-- Python `s.strip()`: remove whitespace from both ends. -/
def pyStrip (s : Str) : Str := pyRTrim (pyLTrim s)

/--
One research document as consumed by `Briefing.generate_category_briefing`.
`overall_score` models `doc.get('evaluation', {}).get('overall_score', '0')`
followed by `float(...)`:
* `none` — the key is absent (the `.get` default `'0'` parses to `0`);
* `some none` — the key is present but `float` cannot parse it
  (`float` raises `ValueError`);
* `some (some q)` — the key is present and parses to the number `q`.
-/
structure Doc where
  title : Str
  raw_content : Option Str
  content : Str
  overall_score : Option (Option Rat)
  deriving DecidableEq

/-- `float(x[1].get('evaluation', {}).get('overall_score', '0'))` from
`briefing.py:152`: a missing score becomes `0`, an unparseable score raises. -/
def scoreOf (d : Doc) : Except Unit Rat :=
  match d.overall_score with
  | none => .ok 0
  | some none => .error ()
  | some (some q) => .ok q

/-- Comparison used for the descending stable sort: `a` may precede `b`
when `a`'s score is at least `b`'s (Python `sorted(..., reverse=True)`). -/
def scoreLE (a b : Rat × Doc) : Bool := decide (b.1 ≤ a.1)

/-- Decorate each document with its numeric key, left to right, propagating
the first `float` failure (Python's `sorted` computes every key before
comparing). -/
def assignScores : List Doc → Except Unit (List (Rat × Doc))
  | [] => .ok []
  | d :: rest =>
    match scoreOf d, assignScores rest with
    | .ok q, .ok ps => .ok ((q, d) :: ps)
    | .error e, _ => .error e
    | .ok _, .error e => .error e

/-- `sorted(items, key=lambda x: float(...), reverse=True)` from
`briefing.py:150-154`: compute every key (propagating `float`'s
`ValueError`), then stable-sort descending by key. -/
def sortDocs (docs : List Doc) : Except Unit (List Doc) :=
  (assignScores docs).map (fun pairs => (pairs.mergeSort scoreLE).map Prod.snd)

/-- `self.max_doc_length = 12000` (`briefing.py:16`). -/
def max_doc_length : Nat := 12000

/-- The total prompt character budget, the literal `140000` at
`briefing.py:164`. -/
def totalBudget : Nat := 140000

/-- The marker appended to truncated content (`briefing.py:162`). -/
def truncMarker : Str := "... [content truncated]".toList

/-- `doc.get('raw_content') or doc.get('content', '')` (`briefing.py:160`):
an absent or empty `raw_content` falls back to `content`. -/
def docContent (d : Doc) : Str :=
  match d.raw_content with
  | some s => if s = [] then d.content else s
  | none => d.content

/-- `if len(content) > self.max_doc_length: content = content[:12000] + marker`
(`briefing.py:161-162`). -/
def truncateContent (c : Str) : Str :=
  if c.length > max_doc_length then c.take max_doc_length ++ truncMarker else c

/-- `doc_entry = f"Title: {title}\n\nContent: {content}"` (`briefing.py:163`). -/
def docEntry (d : Doc) : Str :=
  "Title: ".toList ++ d.title ++ "\n\nContent: ".toList ++ truncateContent (docContent d)

/-- The accumulation loop of `briefing.py:156-168`: append a block only when
the running total plus its length stays strictly under the budget; at the
first block that would not fit, stop (`break`) and drop the rest. -/
def selectBlocks : List Doc → Nat → List Str
  | [], _ => []
  | d :: rest, total =>
    let e := docEntry d
    if total + e.length < totalBudget then e :: selectBlocks rest (total + e.length)
    else []

/-- The whole Selector: sort (which may raise), then accumulate blocks
starting from a zero running total. -/
def selectorBlocks (docs : List Doc) : Except Unit (List Str) :=
  (sortDocs docs).map (fun s => selectBlocks s 0)

/-- Total number of characters in a list of blocks. -/
def sumLen (blocks : List Str) : Nat := (blocks.map List.length).sum

theorem sumLen_nil : sumLen [] = 0 := rfl

theorem sumLen_cons (b : Str) (bs : List Str) :
    sumLen (b :: bs) = b.length + sumLen bs := by
  simp [sumLen]

/-- The accumulation loop keeps `total + sum of appended lengths` at or
under the budget, unless it appends nothing at all. -/
theorem selectBlocks_budget : ∀ (docs : List Doc) (total : Nat),
    total + sumLen (selectBlocks docs total) ≤ totalBudget ∨
      selectBlocks docs total = []
  | [], _ => Or.inr rfl
  | d :: rest, total => by
    simp only [selectBlocks]
    split
    · rename_i h
      left
      rcases selectBlocks_budget rest (total + (docEntry d).length) with h2 | h2
      · rw [sumLen_cons]; omega
      · rw [h2, sumLen_cons, sumLen_nil]; omega
    · exact Or.inr rfl

/-- **C1.** For every category dataset the Selector processes without
raising, the total length of the accumulated document blocks never exceeds
the configured total character budget of 140000. -/
theorem selector_output_within_budget (docs : List Doc) (out : List Str)
    (h : selectorBlocks docs = .ok out) : sumLen out ≤ 140000 := by
  unfold selectorBlocks at h
  cases hs : sortDocs docs with
  | error e => rw [hs] at h; cases h
  | ok s =>
    rw [hs] at h
    simp only [Except.map] at h
    cases h
    rcases selectBlocks_budget s 0 with h2 | h2
    · simpa [totalBudget] using h2
    · simp [h2, sumLen_nil]

/-- A small concrete document used by witnesses. -/
def wDoc : Doc :=
  { title := "T".toList, raw_content := none, content := "hello".toList,
    overall_score := some (some 9) }

/-- Witness for C1: on the singleton dataset `[wDoc]` the Selector succeeds
and its output obeys the budget. -/
theorem selector_output_within_budget_witness :
    sumLen [docEntry wDoc] ≤ 140000 :=
  selector_output_within_budget [wDoc] [docEntry wDoc] (by
    have h : sortDocs [wDoc] = .ok [wDoc] := by
      simp [sortDocs, assignScores, scoreOf, wDoc, Except.map]
    simp only [selectorBlocks, h, Except.map]
    exact congrArg Except.ok (by decide))

/-- `d` has exactly the successfully computed score `q`. -/
def hasScore (d : Doc) (q : Rat) : Bool :=
  match scoreOf d with
  | .ok r => decide (r = q)
  | .error _ => false

theorem scoreLE_trans : ∀ (a b c : Rat × Doc), scoreLE a b → scoreLE b c → scoreLE a c := by
  intro a b c hab hbc
  simp only [scoreLE, decide_eq_true_eq] at *
  exact le_trans hbc hab

theorem scoreLE_total : ∀ (a b : Rat × Doc), scoreLE a b || scoreLE b a := by
  intro a b
  simp only [scoreLE, Bool.or_eq_true, decide_eq_true_eq]
  exact le_total b.1 a.1

theorem assignScores_ok : ∀ {docs : List Doc} {pairs : List (Rat × Doc)},
    assignScores docs = .ok pairs →
    pairs.map Prod.snd = docs ∧ ∀ p ∈ pairs, scoreOf p.2 = .ok p.1 := by
  intro docs
  induction docs with
  | nil =>
    intro pairs h
    simp only [assignScores] at h
    cases h
    exact ⟨rfl, by intro p hp; cases hp⟩
  | cons d rest ih =>
    intro pairs h
    unfold assignScores at h
    cases hq : scoreOf d with
    | error e => rw [hq] at h; cases h
    | ok q =>
      cases hr : assignScores rest with
      | error e => rw [hq, hr] at h; cases h
      | ok ps =>
        rw [hq, hr] at h
        cases h
        obtain ⟨h1, h2⟩ := ih hr
        refine ⟨by simp [h1], ?_⟩
        intro p hp
        cases hp with
        | head => exact hq
        | tail _ hp => exact h2 p hp

/--
**C4 (amended).** For every document set that the sort processes without
raising, the output is a permutation of the input ordered by descending
evaluation score, with a stable tie-break (for every score value, the
subsequence of documents having that score is exactly the input's), and
a document whose score is *missing* is treated as having score 0; a
present but unparseable score, by contrast, makes the sort raise
(see the counterexample theorem).
-/
theorem sort_descending_stable (docs out : List Doc)
    (h : sortDocs docs = .ok out) :
    out.Perm docs ∧
    out.Pairwise (fun a b => ∀ qa qb,
      scoreOf a = .ok qa → scoreOf b = .ok qb → qb ≤ qa) ∧
    (∀ t rc c, scoreOf ⟨t, rc, c, none⟩ = .ok 0) ∧
    (∀ q : Rat, out.filter (fun d => hasScore d q) =
      docs.filter (fun d => hasScore d q)) := by
  unfold sortDocs at h
  cases ha : assignScores docs with
  | error e => rw [ha] at h; cases h
  | ok pairs =>
  rw [ha] at h
  simp only [Except.map] at h
  cases h
  obtain ⟨hmap, hsc⟩ := assignScores_ok ha
  have hperm : (pairs.mergeSort scoreLE).Perm pairs := List.mergeSort_perm pairs scoreLE
  refine ⟨?_, ?_, fun t rc c => rfl, ?_⟩
  · rw [← hmap]
    exact hperm.map Prod.snd
  · have hsorted := List.sorted_mergeSort scoreLE_trans scoreLE_total pairs
    rw [List.pairwise_map]
    refine hsorted.imp_of_mem ?_
    intro a b ha' hb' hab qa qb hqa hqb
    have h1 : scoreOf a.2 = .ok a.1 := hsc a (List.mem_mergeSort.mp ha')
    have h2 : scoreOf b.2 = .ok b.1 := hsc b (List.mem_mergeSort.mp hb')
    rw [h1] at hqa
    rw [h2] at hqb
    cases hqa
    cases hqb
    simpa [scoreLE] using hab
  · intro q
    rw [← hmap, List.filter_map, List.filter_map]
    simp only [Function.comp_def]
    have key : ∀ p ∈ pairs, hasScore p.2 q = decide (p.1 = q) := by
      intro p hp
      simp [hasScore, hsc p hp]
    have hall : ∀ p ∈ pairs.filter (fun p => hasScore p.2 q), p.1 = q := by
      intro p hp
      have hmem := List.mem_of_mem_filter hp
      have hPq := List.of_mem_filter hp
      rw [key p hmem] at hPq
      exact of_decide_eq_true hPq
    have hpw : (pairs.filter (fun p => hasScore p.2 q)).Pairwise
        (fun a b => scoreLE a b) := by
      apply List.pairwise_of_forall_mem_list
      intro a hamem b hbmem
      have h1 := hall a hamem
      have h2 := hall b hbmem
      simp [scoreLE, h1, h2]
    have hsub2 : List.Sublist (pairs.filter (fun p => hasScore p.2 q))
        (pairs.mergeSort scoreLE) :=
      List.sublist_mergeSort scoreLE_trans scoreLE_total hpw (List.filter_sublist pairs)
    have hsub3 : List.Sublist (pairs.filter (fun p => hasScore p.2 q))
        ((pairs.mergeSort scoreLE).filter (fun p => hasScore p.2 q)) := by
      have hidem : (pairs.filter (fun p => hasScore p.2 q)).filter
          (fun p => hasScore p.2 q) = pairs.filter (fun p => hasScore p.2 q) := by
        simp [List.filter_filter]
      have h4 := hsub2.filter (fun p => hasScore p.2 q)
      rwa [hidem] at h4
    have hlen : ((pairs.mergeSort scoreLE).filter (fun p => hasScore p.2 q)).length =
        (pairs.filter (fun p => hasScore p.2 q)).length :=
      (hperm.filter _).length_eq
    rw [hsub3.eq_of_length hlen.symm]

/-- A document whose evaluation score is present but fails to parse as a
number (`float` raises `ValueError` at `briefing.py:152`). -/
def badScoreDoc : Doc :=
  { title := "T".toList, raw_content := none, content := "c".toList,
    overall_score := some none }

/-- **C4 (counterexample).** On a one-document dataset whose score is
present but unparseable, the sort — and with it the whole Selector —
raises instead of treating the score as 0: `float(...)` is evaluated
outside the `try` block of `generate_category_briefing`. -/
theorem unparseable_score_raises :
    sortDocs [badScoreDoc] = .error () ∧ selectorBlocks [badScoreDoc] = .error () :=
  ⟨rfl, rfl⟩

/-- Three concrete documents, already in descending score order,
with a tie between the last two. -/
def wDoc9 : Doc :=
  { title := "A".toList, raw_content := none, content := "a".toList,
    overall_score := some (some 9) }

def wDoc5a : Doc :=
  { title := "B".toList, raw_content := none, content := "b".toList,
    overall_score := some (some 5) }

def wDoc5b : Doc :=
  { title := "C".toList, raw_content := none, content := "c".toList,
    overall_score := some (some 5) }

/-- Witness for the amended C4 on a concrete three-document dataset with a
score tie. -/
theorem sort_descending_stable_witness :
    ([wDoc9, wDoc5a, wDoc5b] : List Doc).Perm [wDoc9, wDoc5a, wDoc5b] ∧
    ([wDoc9, wDoc5a, wDoc5b] : List Doc).Pairwise (fun a b => ∀ qa qb,
      scoreOf a = .ok qa → scoreOf b = .ok qb → qb ≤ qa) ∧
    (∀ t rc c, scoreOf ⟨t, rc, c, none⟩ = .ok 0) ∧
    (∀ q : Rat, ([wDoc9, wDoc5a, wDoc5b] : List Doc).filter (fun d => hasScore d q) =
      [wDoc9, wDoc5a, wDoc5b].filter (fun d => hasScore d q)) :=
  sort_descending_stable [wDoc9, wDoc5a, wDoc5b] [wDoc9, wDoc5a, wDoc5b] (by
    have hp : assignScores [wDoc9, wDoc5a, wDoc5b] =
        .ok [(9, wDoc9), (5, wDoc5a), (5, wDoc5b)] := rfl
    have hs : ([(9, wDoc9), (5, wDoc5a), (5, wDoc5b)] : List (Rat × Doc)).mergeSort scoreLE =
        [(9, wDoc9), (5, wDoc5a), (5, wDoc5b)] :=
      List.mergeSort_of_sorted (by decide)
    simp [sortDocs, hp, Except.map, hs])

theorem truncMarker_length : truncMarker.length = 23 := rfl

/-- Truncation bounds a document's contribution from its content at
`12000 + 23` characters, whatever the original content length. -/
theorem truncateContent_length_le (c : Str) :
    (truncateContent c).length ≤ max_doc_length + truncMarker.length := by
  unfold truncateContent
  split
  · rw [List.length_append, List.length_take]
    omega
  · rename_i hc
    simp only [gt_iff_lt, not_lt] at hc
    omega

/-- A document entry is at most `title length + 12041` characters long:
7 for `"Title: "`, 11 for `"\n\nContent: "`, and at most 12023 for the
truncated content. -/
theorem docEntry_length_le (d : Doc) :
    (docEntry d).length ≤ d.title.length + 12041 := by
  have h1 : ("Title: ".toList).length = 7 := rfl
  have h2 : ("\n\nContent: ".toList).length = 11 := rfl
  have h3 := truncateContent_length_le (docContent d)
  rw [truncMarker_length] at h3
  simp only [docEntry, List.length_append, h1, h2, max_doc_length] at *
  omega

/--
**C5 (amended).** Whenever the sort succeeds, the highest-scored document
(the head of the sorted list) is never dropped by the budgeting loop
*provided its title fits* — its title has at most 127958 characters, so
that the entry (fixed formatting + title + content truncated to the
per-document maximum) stays strictly under the 140000 budget.  Its
content is truncated before budgeting, so an oversized *content* alone
never causes the top document to be dropped; an oversized *title* can
(see the counterexample theorem).
-/
theorem top_document_not_dropped (docs : List Doc) (d : Doc) (rest : List Doc)
    (h : sortDocs docs = .ok (d :: rest)) (htitle : d.title.length ≤ 127958) :
    selectorBlocks docs = .ok (docEntry d :: selectBlocks rest (docEntry d).length) := by
  have hcond : 0 + (docEntry d).length < totalBudget := by
    have hb := docEntry_length_le d
    simp only [totalBudget]
    omega
  unfold selectorBlocks
  rw [h]
  simp only [Except.map]
  congr 1
  simp only [selectBlocks]
  rw [if_pos hcond, Nat.zero_add]

/-- Witness for the amended C5: on the singleton dataset `[wDoc]` the
top document's entry is the first output block. -/
theorem top_document_not_dropped_witness :
    selectorBlocks [wDoc] = .ok (docEntry wDoc :: selectBlocks [] (docEntry wDoc).length) :=
  top_document_not_dropped [wDoc] wDoc [] (by
    have hp : assignScores [wDoc] = .ok [(9, wDoc)] := rfl
    simp [sortDocs, hp, Except.map]) (by decide)

/-- A document whose title alone is as long as the whole budget; its
content is empty.  Scores make it trivially the highest-scored one. -/
def bigTitleDoc : Doc :=
  { title := List.replicate 140000 'a', raw_content := none, content := [],
    overall_score := some (some 9) }

/-- **C5 (counterexample).** The title is never truncated, so on the
non-empty dataset `[bigTitleDoc]` the highest-scored (only) document is
dropped entirely: the Selector returns no block at all, refuting
"the document with the highest evaluation score is never dropped". -/
theorem big_title_doc_dropped :
    sortDocs [bigTitleDoc] = .ok [bigTitleDoc] ∧
    selectorBlocks [bigTitleDoc] = .ok [] := by
  have hs : sortDocs [bigTitleDoc] = .ok [bigTitleDoc] := by
    have hp : assignScores [bigTitleDoc] = .ok [(9, bigTitleDoc)] := rfl
    simp [sortDocs, hp, Except.map]
  refine ⟨hs, ?_⟩
  have hlen : (docEntry bigTitleDoc).length = 140018 := by
    have h3 : truncateContent (docContent bigTitleDoc) = [] := rfl
    have h4 : bigTitleDoc.title = List.replicate 140000 'a' := rfl
    rw [docEntry, h3, h4]
    simp only [List.length_append, List.length_replicate, List.append_nil]
    decide
  have hcond : ¬ (0 + (docEntry bigTitleDoc).length < totalBudget) := by
    rw [hlen]
    simp [totalBudget]
  have hsel : selectBlocks [bigTitleDoc] 0 = [] := by
    simp only [selectBlocks]
    rw [if_neg hcond]
  unfold selectorBlocks
  rw [hs]
  simp only [Except.map]
  rw [hsel]

/-- The lifecycle of one enqueued briefing task under the orchestrator's
`asyncio.Semaphore(2)` (`briefing.py:264-268`): a task waits for
admission, runs its backend call while holding a slot (`async with
briefing_semaphore`), and releases the slot when it finishes. -/
inductive Phase where
  | waiting
  | running
  | done
  deriving DecidableEq

/-- Scheduler state: the semaphore's free-slot count plus every task's
phase (single-threaded cooperative concurrency: steps interleave only at
suspension points). -/
structure SchedState where
  avail : Nat
  phases : List Phase

/-- The cooperative interleaving steps. `acquire` admits a waiting task
only when a slot is free — `Semaphore.acquire` suspends otherwise, so no
step exists for it; `finish` completes a running task and releases its
slot on leaving the `async with` block. -/
inductive SchedStep : SchedState → SchedState → Prop where
  | acquire (pre post : List Phase) (a : Nat) (h : 0 < a) :
      SchedStep ⟨a, pre ++ Phase.waiting :: post⟩
        ⟨a - 1, pre ++ Phase.running :: post⟩
  | finish (pre post : List Phase) (a : Nat) :
      SchedStep ⟨a, pre ++ Phase.running :: post⟩
        ⟨a + 1, pre ++ Phase.done :: post⟩

/-- `asyncio.Semaphore(2)` with `n` enqueued briefing tasks, all waiting. -/
def initSched (n : Nat) : SchedState := ⟨2, List.replicate n Phase.waiting⟩

/-- States the orchestrator's fan-out can reach from `n` enqueued tasks. -/
inductive SchedReachable (n : Nat) : SchedState → Prop where
  | init : SchedReachable n (initSched n)
  | step {s t : SchedState} : SchedReachable n s → SchedStep s t → SchedReachable n t

/-- The number of briefing-generation backend calls currently in flight. -/
def inFlight (s : SchedState) : Nat :=
  (s.phases.filter (fun p => decide (p = Phase.running))).length

/-- The semaphore invariant: free slots plus in-flight calls always equal
the capacity 2. -/
theorem sched_invariant {n : Nat} {s : SchedState} (h : SchedReachable n s) :
    s.avail + inFlight s = 2 := by
  induction h with
  | init => simp [initSched, inFlight, List.filter_replicate]
  | step hr hstep ih =>
    cases hstep with
    | acquire pre post a ha =>
      simp only [inFlight, List.filter_append, List.filter_cons, List.length_append] at ih ⊢
      simp at ih ⊢
      omega
    | finish pre post a =>
      simp only [inFlight, List.filter_append, List.filter_cons, List.length_append] at ih ⊢
      simp at ih ⊢
      omega

/-- **C2.** For every number `n` of enqueued category tasks and every
reachable scheduler state, at most 2 briefing-generation backend calls
are concurrently in flight; a task beyond capacity has no admission step
available until a running task releases its slot. -/
theorem briefing_concurrency_cap {n : Nat} {s : SchedState}
    (h : SchedReachable n s) : inFlight s ≤ 2 := by
  have hinv := sched_invariant h
  omega

/-- Witness for C2: with three enqueued tasks, admit one task; the
reached state has at most 2 calls in flight. -/
theorem briefing_concurrency_cap_witness :
    inFlight ⟨1, [Phase.running, Phase.waiting, Phase.waiting]⟩ ≤ 2 :=
  briefing_concurrency_cap
    (SchedReachable.step (@SchedReachable.init 3)
      (SchedStep.acquire [] [Phase.waiting, Phase.waiting] 2 (by omega)))

/-- The four fixed research categories. -/
inductive Category where
  | company
  | industry
  | financial
  | revenue
  deriving DecidableEq

/-- Status events sent to the websocket observer by the briefing stage. -/
inductive Ev where
  | processing
  | briefing_start (cat : Category) (total_docs : Nat)
  | briefing_complete (cat : Category)
  deriving DecidableEq

/-- The category an event is tagged with, if any. -/
def evCat : Ev → Option Category
  | .processing => none
  | .briefing_start c _ => some c
  | .briefing_complete c => some c

/-- Emission guarded by the presence of the observer: the code sends a
status update only when both `websocket_manager` and `job_id` are set. -/
def obsEvents (ho : Bool) (e : Ev) : List Ev := if ho then [e] else []

theorem mem_obsEvents {ho : Bool} {e e' : Ev} (h : e' ∈ obsEvents ho e) : e' = e := by
  unfold obsEvents at h
  split at h
  · simpa using h
  · cases h

/-- Outcome of one `generate_category_briefing` call: either an exception
propagates to the caller (carrying the events already emitted), or the
record `{'content': ...}` is returned. -/
inductive GenOutcome where
  | raised (events : List Ev)
  | returned (content : Str) (events : List Ev)
  deriving DecidableEq

/-- `Briefing.generate_category_briefing` (`briefing.py:23-205`) with the
completion backend's outcome passed explicitly (`.error ()` models the
call raising, `.ok raw` a response whose message content is `raw`).
The `briefing_start` event fires first; the sort may then raise out of
the function (its `float` call sits outside the `try`); otherwise the
backend is invoked inside the `try`, and a failure or an empty stripped
response yields `{'content': ''}` with no completion event, while a
non-empty response yields the stripped text plus a `briefing_complete`
event. -/
def generate_category_briefing (docs : List Doc) (cat : Category)
    (ho : Bool) (backend : Except Unit Str) : GenOutcome :=
  let startEvs := obsEvents ho (Ev.briefing_start cat docs.length)
  match sortDocs docs with
  | .error _ => .raised startEvs
  | .ok sorted =>
    let _blocks := selectBlocks sorted 0
    match backend with
    | .error _ => .returned [] startEvs
    | .ok raw =>
      let content := pyStrip raw
      if content = [] then .returned [] startEvs
      else .returned content
        (startEvs ++ obsEvents ho (Ev.briefing_complete cat))

/--
**C3 (amended).** For every dataset whose evaluation scores all parse
(the sort succeeds), the Briefing Generator always *returns* a record and
never propagates a thrown error: on a backend error it returns empty
content with only the start event; on an empty (stripped) backend
response it likewise returns empty content with only the start event; on
a non-empty response it returns the stripped text and emits exactly the
two events start and complete.  A dataset containing a document with an
unparseable evaluation score, by contrast, makes the call raise after
the start event (see the counterexample theorem).
-/
theorem generator_returns_and_events (docs sorted : List Doc)
    (cat : Category) (backend : Except Unit Str)
    (h : sortDocs docs = .ok sorted) :
    (backend = .error () →
      generate_category_briefing docs cat true backend =
        .returned [] [Ev.briefing_start cat docs.length]) ∧
    (∀ raw, backend = .ok raw → pyStrip raw = [] →
      generate_category_briefing docs cat true backend =
        .returned [] [Ev.briefing_start cat docs.length]) ∧
    (∀ raw, backend = .ok raw → pyStrip raw ≠ [] →
      generate_category_briefing docs cat true backend =
        .returned (pyStrip raw)
          [Ev.briefing_start cat docs.length, Ev.briefing_complete cat]) := by
  refine ⟨?_, ?_, ?_⟩
  · intro hb
    subst hb
    unfold generate_category_briefing
    rw [h]
    rfl
  · intro raw hb hempty
    subst hb
    unfold generate_category_briefing
    rw [h]
    simp [obsEvents, hempty]
  · intro raw hb hne
    subst hb
    unfold generate_category_briefing
    rw [h]
    simp [obsEvents, hne]

/-- Witness for the amended C3 at the concrete dataset `[wDoc]` and a
failing backend. -/
theorem generator_returns_and_events_witness :
    ((.error () : Except Unit Str) = .error () →
      generate_category_briefing [wDoc] Category.company true (.error ()) =
        .returned [] [Ev.briefing_start Category.company 1]) ∧
    (∀ raw, (.error () : Except Unit Str) = .ok raw → pyStrip raw = [] →
      generate_category_briefing [wDoc] Category.company true (.error ()) =
        .returned [] [Ev.briefing_start Category.company 1]) ∧
    (∀ raw, (.error () : Except Unit Str) = .ok raw → pyStrip raw ≠ [] →
      generate_category_briefing [wDoc] Category.company true (.error ()) =
        .returned (pyStrip raw)
          [Ev.briefing_start Category.company 1,
            Ev.briefing_complete Category.company]) :=
  generator_returns_and_events [wDoc] [wDoc] Category.company (.error ()) (by
    have hp : assignScores [wDoc] = .ok [(9, wDoc)] := rfl
    simp [sortDocs, hp, Except.map])

/-- **C3 (counterexample).** On a dataset holding one document with an
unparseable evaluation score, `generate_category_briefing` propagates a
thrown error (`float` raises before the `try` block), even though the
backend would have answered: the claim that it never propagates a thrown
error to its caller is false. -/
theorem generator_raises_on_bad_score :
    generate_category_briefing [badScoreDoc] Category.company true
      (.ok ("text".toList)) =
      .raised [Ev.briefing_start Category.company 1] := rfl

/-- The slice of `ResearchState` read and written by
`Briefing.create_briefings`: the four curated datasets, the four
per-category briefing fields (`none` = key absent), and the final
briefings map. -/
structure OrchState where
  curated_company_data : List Doc
  curated_revenue_data : List Doc
  curated_financial_data : List Doc
  curated_industry_data : List Doc
  company_briefing : Option Str
  revenue_briefing : Option Str
  financial_briefing : Option Str
  industry_briefing : Option Str
  briefings : List (Category × Str)
  deriving DecidableEq

/-- The iteration order of the `categories` dict at `briefing.py:232-237`
(insertion order: company, revenue, financial, industry). -/
def categoryOrder : List Category :=
  [Category.company, Category.revenue, Category.financial, Category.industry]

/-- The curated dataset for a category (`state.get(f'curated_{field}', {})`). -/
def curatedData (s : OrchState) : Category → List Doc
  | .company => s.curated_company_data
  | .revenue => s.curated_revenue_data
  | .financial => s.curated_financial_data
  | .industry => s.curated_industry_data

/-- Write one category's briefing state field (`state[briefing_key] = v`). -/
def setBriefingField (s : OrchState) (cat : Category) (v : Str) : OrchState :=
  match cat with
  | .company => { s with company_briefing := some v }
  | .revenue => { s with revenue_briefing := some v }
  | .financial => { s with financial_briefing := some v }
  | .industry => { s with industry_briefing := some v }

/-- Read one category's briefing state field. -/
def briefingField (s : OrchState) : Category → Option Str
  | .company => s.company_briefing
  | .revenue => s.revenue_briefing
  | .financial => s.financial_briefing
  | .industry => s.industry_briefing

/-- The enqueueing loop of `briefing.py:242-259`: for each category in
dict order, a non-empty curated dataset enqueues a task; an empty one
immediately sets that category's briefing field to `""` and enqueues
nothing. -/
def skipPass : OrchState → List Category → OrchState × List Category
  | s, [] => (s, [])
  | s, cat :: rest =>
    if curatedData s cat = [] then skipPass (setBriefingField s cat []) rest
    else
      let (s', ts) := skipPass s rest
      (s', cat :: ts)

/-- The tasks `create_briefings` enqueues for a given state. -/
def briefingTasks (s : OrchState) : List Category :=
  (skipPass { s with briefings := [] } categoryOrder).2

/-- The state writes of one completed `process_briefing` task
(`briefing.py:275-281`): a non-empty result is recorded both in the
briefings map and in the category's state field; an empty result only
sets the state field to `""`. -/
def recordBriefing (s : OrchState) (cat : Category) (content : Str) : OrchState :=
  if content ≠ [] then
    { setBriefingField s cat content with briefings := s.briefings ++ [(cat, content)] }
  else setBriefingField s cat []

/-- `process_briefing` over the task list (`briefing.py:266-293`),
sequentialized: the semaphore-gated tasks write disjoint state fields, so
any interleaving yields this state.  A task that raises makes
`asyncio.gather` re-raise. -/
def processTasks (ho : Bool) (backend : Category → Except Unit Str) :
    OrchState → List Category → Except Unit (OrchState × List Ev)
  | s, [] => .ok (s, [])
  | s, cat :: rest =>
    match generate_category_briefing (curatedData s cat) cat ho (backend cat) with
    | .raised _ => .error ()
    | .returned content evs =>
      match processTasks ho backend (recordBriefing s cat content) rest with
      | .error e => .error e
      | .ok (t, evs') => .ok (t, evs ++ evs')

/-- `Briefing.create_briefings` (`briefing.py:207-301`): emit the initial
`processing` event, run the skip/enqueue pass, process all tasks, and
store the collected briefings map. -/
def create_briefings (s : OrchState) (ho : Bool)
    (backend : Category → Except Unit Str) : Except Unit (OrchState × List Ev) :=
  let initEvs := obsEvents ho Ev.processing
  match skipPass { s with briefings := [] } categoryOrder with
  | (s1, tasks) =>
    match processTasks ho backend s1 tasks with
    | .error e => .error e
    | .ok (s2, evs) => .ok (s2, initEvs ++ evs)

theorem curatedData_setBriefingField (s : OrchState) (cat c : Category) (v : Str) :
    curatedData (setBriefingField s cat v) c = curatedData s c := by
  cases cat <;> cases c <;> rfl

theorem briefingField_setBriefingField_ne (s : OrchState) {cat c : Category}
    (v : Str) (h : cat ≠ c) :
    briefingField (setBriefingField s cat v) c = briefingField s c := by
  cases cat <;> cases c <;> first | rfl | exact absurd rfl h

theorem briefingField_setBriefingField_self (s : OrchState) (cat : Category) (v : Str) :
    briefingField (setBriefingField s cat v) cat = some v := by
  cases cat <;> rfl

theorem briefings_setBriefingField (s : OrchState) (cat : Category) (v : Str) :
    (setBriefingField s cat v).briefings = s.briefings := by
  cases cat <;> rfl

theorem briefingField_setBriefings (s : OrchState) (b : List (Category × Str))
    (c : Category) :
    briefingField { s with briefings := b } c = briefingField s c := by
  cases c <;> rfl

/-- `skipPass` never changes the curated datasets. -/
theorem curatedData_skipPass : ∀ (cats : List Category) (s : OrchState) (c : Category),
    curatedData (skipPass s cats).1 c = curatedData s c
  | [], s, c => rfl
  | cat :: rest, s, c => by
    simp only [skipPass]
    split
    · rw [curatedData_skipPass rest, curatedData_setBriefingField]
    · exact curatedData_skipPass rest s c

/-- `skipPass` never changes the briefings map. -/
theorem briefings_skipPass : ∀ (cats : List Category) (s : OrchState),
    (skipPass s cats).1.briefings = s.briefings
  | [], s => rfl
  | cat :: rest, s => by
    simp only [skipPass]
    split
    · rw [briefings_skipPass rest, briefings_setBriefingField]
    · exact briefings_skipPass rest s

/-- A category is enqueued only if its curated dataset is non-empty. -/
theorem mem_skipPass_tasks : ∀ (cats : List Category) (s : OrchState) (c : Category),
    c ∈ (skipPass s cats).2 → curatedData s c ≠ []
  | [], s, c, h => absurd h (by simp [skipPass])
  | cat :: rest, s, c, h => by
    revert h
    simp only [skipPass]
    split
    · intro h
      have := mem_skipPass_tasks rest _ c h
      rwa [curatedData_setBriefingField] at this
    · intro h
      rcases List.mem_cons.mp h with hc | hc
      · subst hc; assumption
      · exact mem_skipPass_tasks rest s c hc

/-- `skipPass` on categories not containing `c` leaves `c`'s field alone. -/
theorem briefingField_skipPass_not_mem :
    ∀ (cats : List Category) (s : OrchState) (c : Category), c ∉ cats →
    briefingField (skipPass s cats).1 c = briefingField s c
  | [], s, c, _ => rfl
  | cat :: rest, s, c, h => by
    have hne : cat ≠ c := fun hh => h (hh ▸ List.mem_cons_self cat rest)
    have hrest : c ∉ rest := fun hh => h (List.mem_cons_of_mem cat hh)
    simp only [skipPass]
    split
    · rw [briefingField_skipPass_not_mem rest _ c hrest,
        briefingField_setBriefingField_ne s [] hne]
    · exact briefingField_skipPass_not_mem rest s c hrest

/-- An empty category listed once gets its briefing field set to `""`. -/
theorem briefingField_skipPass_empty :
    ∀ (cats : List Category) (s : OrchState) (c : Category), cats.Nodup →
    c ∈ cats → curatedData s c = [] →
    briefingField (skipPass s cats).1 c = some []
  | [], s, c, _, h, _ => absurd h (by simp)
  | cat :: rest, s, c, hnd, hmem, hdata => by
    rcases List.mem_cons.mp hmem with hc | hc
    · subst hc
      simp only [skipPass]
      rw [if_pos hdata]
      have hrest : c ∉ rest := (List.nodup_cons.mp hnd).1
      rw [briefingField_skipPass_not_mem rest _ c hrest,
        briefingField_setBriefingField_self]
    · simp only [skipPass]
      split
      · exact briefingField_skipPass_empty rest _ c (List.nodup_cons.mp hnd).2 hc
          (by rwa [curatedData_setBriefingField])
      · exact briefingField_skipPass_empty rest s c (List.nodup_cons.mp hnd).2 hc hdata

/-- Every event emitted by one generator call is tagged with its category. -/
theorem generate_events_tagged (docs : List Doc) (cat : Category) (ho : Bool)
    (b : Except Unit Str) (content : Str) (evs : List Ev)
    (h : generate_category_briefing docs cat ho b = .returned content evs) :
    ∀ e ∈ evs, evCat e = some cat := by
  unfold generate_category_briefing at h
  cases hs : sortDocs docs with
  | error e0 => rw [hs] at h; cases h
  | ok sorted =>
    rw [hs] at h
    cases b with
    | error e0 =>
      simp only [] at h
      cases h
      intro e he
      rw [mem_obsEvents he]
      rfl
    | ok raw =>
      simp only [] at h
      split at h <;> cases h
      · intro e he
        rw [mem_obsEvents he]
        rfl
      · intro e he
        rcases List.mem_append.mp he with h1 | h1
        · rw [mem_obsEvents h1]; rfl
        · rw [mem_obsEvents h1]; rfl

theorem curatedData_setBriefings (s : OrchState) (b : List (Category × Str))
    (c : Category) :
    curatedData { s with briefings := b } c = curatedData s c := by
  cases c <;> rfl

theorem curatedData_recordBriefing (s : OrchState) (cat : Category) (v : Str)
    (c : Category) :
    curatedData (recordBriefing s cat v) c = curatedData s c := by
  unfold recordBriefing
  split
  · rw [curatedData_setBriefings, curatedData_setBriefingField]
  · rw [curatedData_setBriefingField]

theorem briefingField_recordBriefing_ne (s : OrchState) {cat c : Category}
    (v : Str) (h : cat ≠ c) :
    briefingField (recordBriefing s cat v) c = briefingField s c := by
  unfold recordBriefing
  split
  · rw [briefingField_setBriefings, briefingField_setBriefingField_ne s v h]
  · rw [briefingField_setBriefingField_ne s [] h]

theorem mem_briefings_recordBriefing {s : OrchState} {cat : Category} {v : Str}
    {c : Category} {x : Str}
    (h : (c, x) ∈ (recordBriefing s cat v).briefings) :
    (c, x) ∈ s.briefings ∨ c = cat := by
  revert h
  unfold recordBriefing
  split
  · intro h
    have h2 : (c, x) ∈ s.briefings ++ [(cat, v)] := h
    rcases List.mem_append.mp h2 with h1 | h1
    · exact Or.inl h1
    · simp only [List.mem_singleton, Prod.mk.injEq] at h1
      exact Or.inr h1.1
  · intro h
    rw [briefings_setBriefingField] at h
    exact Or.inl h

theorem briefings_recordBriefing_length (s : OrchState) (cat : Category) (v : Str) :
    (recordBriefing s cat v).briefings.length ≤ s.briefings.length + 1 := by
  unfold recordBriefing
  split
  · have h : ({ setBriefingField s cat v with
        briefings := s.briefings ++ [(cat, v)] } : OrchState).briefings =
        s.briefings ++ [(cat, v)] := rfl
    rw [h, List.length_append]
    simp
  · rw [briefings_setBriefingField]
    omega

/-- Processing tasks that never mention `c` leaves `c`'s briefing field
alone, emits no event tagged `c`, and adds no briefings entry for `c`. -/
theorem processTasks_not_mem :
    ∀ (tasks : List Category) (ho : Bool) (backend : Category → Except Unit Str)
      (s t : OrchState) (evs : List Ev) (c : Category),
      processTasks ho backend s tasks = .ok (t, evs) → c ∉ tasks →
      briefingField t c = briefingField s c ∧
      (∀ e ∈ evs, evCat e ≠ some c) ∧
      (∀ x, (c, x) ∈ t.briefings → (c, x) ∈ s.briefings)
  | [], ho, backend, s, t, evs, c, h, _ => by
    simp only [processTasks] at h
    cases h
    refine ⟨rfl, ?_, fun x hx => hx⟩
    intro e he
    cases he
  | cat :: rest, ho, backend, s, t, evs, c, h, hnm => by
    have hne : cat ≠ c := fun hh => hnm (hh ▸ List.mem_cons_self cat rest)
    have hrest : c ∉ rest := fun hh => hnm (List.mem_cons_of_mem cat hh)
    simp only [processTasks] at h
    split at h
    · cases h
    · rename_i content evs0 hg
      split at h
      · cases h
      · rename_i t' evs' hp
        cases h
        obtain ⟨hf, hev, hbr⟩ := processTasks_not_mem rest ho backend _ _ _ c hp hrest
        have htag := generate_events_tagged _ cat ho (backend cat) content evs0 hg
        refine ⟨?_, ?_, ?_⟩
        · rw [hf, briefingField_recordBriefing_ne s content hne]
        · intro e he
          rcases List.mem_append.mp he with h1 | h1
          · rw [htag e h1]
            intro hcc
            exact hne (Option.some.inj hcc)
          · exact hev e h1
        · intro x hx
          rcases mem_briefings_recordBriefing (hbr x hx) with h1 | h1
          · exact h1
          · exact absurd h1.symm hne

/-- When the sort succeeds, the generator returns a record whatever the
backend does. -/
theorem generate_not_raised (docs sorted : List Doc) (cat : Category) (ho : Bool)
    (b : Except Unit Str) (h : sortDocs docs = .ok sorted) :
    ∃ content evs, generate_category_briefing docs cat ho b = .returned content evs := by
  unfold generate_category_briefing
  rw [h]
  cases b with
  | error e => exact ⟨_, _, rfl⟩
  | ok raw =>
    by_cases hc : pyStrip raw = []
    · exact ⟨_, _, by simp only []; rw [if_pos hc]⟩
    · exact ⟨_, _, by simp only []; rw [if_neg hc]⟩

/-- When every enqueued category's dataset sorts successfully, the
fan-out/fan-in completes without raising. -/
theorem processTasks_ok : ∀ (tasks : List Category) (ho : Bool)
    (backend : Category → Except Unit Str) (s : OrchState),
    (∀ c ∈ tasks, ∃ sorted, sortDocs (curatedData s c) = .ok sorted) →
    ∃ r, processTasks ho backend s tasks = .ok r
  | [], ho, backend, s, _ => ⟨(s, []), rfl⟩
  | cat :: rest, ho, backend, s, h => by
    obtain ⟨sorted, hsort⟩ := h cat (List.mem_cons_self cat rest)
    obtain ⟨content, evs0, hg⟩ :=
      generate_not_raised _ sorted cat ho (backend cat) hsort
    have hrest : ∀ c ∈ rest, ∃ sorted2,
        sortDocs (curatedData (recordBriefing s cat content) c) = .ok sorted2 := by
      intro c hc
      rw [curatedData_recordBriefing]
      exact h c (List.mem_cons_of_mem cat hc)
    obtain ⟨r, hr⟩ := processTasks_ok rest ho backend _ hrest
    obtain ⟨t2, evs2⟩ := r
    refine ⟨(t2, evs0 ++ evs2), ?_⟩
    simp only [processTasks]
    rw [hg]
    simp only []
    rw [hr]

/-- Each task adds at most one entry to the briefings map. -/
theorem processTasks_briefings_length : ∀ (tasks : List Category) (ho : Bool)
    (backend : Category → Except Unit Str) (s t : OrchState) (evs : List Ev),
    processTasks ho backend s tasks = .ok (t, evs) →
    t.briefings.length ≤ s.briefings.length + tasks.length
  | [], _, _, s, t, evs, h => by
    simp only [processTasks] at h
    cases h
    simp
  | cat :: rest, ho, backend, s, t, evs, h => by
    simp only [processTasks] at h
    split at h
    · cases h
    · rename_i content evs0 hg
      split at h
      · cases h
      · rename_i t' evs' hp
        cases h
        have ih := processTasks_briefings_length rest ho backend _ _ _ hp
        have hlen := briefings_recordBriefing_length s cat content
        simp only [List.length_cons]
        omega

/-- The example input of the spec: docA scored 9 in `company_data`, docB
scored 5 in `financial_data`, empty `revenue_data` and `industry_data`. -/
def exState : OrchState :=
  { curated_company_data := [wDoc9], curated_revenue_data := [],
    curated_financial_data := [wDoc5a], curated_industry_data := [],
    company_briefing := none, revenue_briefing := none,
    financial_briefing := none, industry_briefing := none,
    briefings := [] }

/-- A backend that answers every category with the text `"text"`. -/
def exBackend : Category → Except Unit Str := fun _ => .ok ("text".toList)

/-- The state after the enqueueing pass on the example input. -/
def exS1 : OrchState :=
  { exState with revenue_briefing := some [], industry_briefing := some [] }

/--
**C8.** (i) For every pipeline state, any of the four fixed categories
whose curated dataset is empty is skipped: when `create_briefings`
returns, that category's briefing state field is `""`, no generation
task was enqueued for it, no start/complete event is tagged with it, and
the final briefings map has no entry for it.  (ii) On the example input
(company doc scored 9, financial doc scored 5, empty revenue and
industry), exactly the two tasks company and financial are enqueued, the
run succeeds, both skipped briefings are `""`, and the briefings map has
at most 2 keys.
-/
theorem empty_categories_skipped :
    (∀ (s : OrchState) (ho : Bool) (backend : Category → Except Unit Str)
      (out : OrchState) (evs : List Ev) (cat : Category),
      create_briefings s ho backend = .ok (out, evs) →
      curatedData s cat = [] →
      briefingField out cat = some [] ∧
      cat ∉ briefingTasks s ∧
      (∀ e ∈ evs, evCat e ≠ some cat) ∧
      (∀ x, (cat, x) ∉ out.briefings)) ∧
    briefingTasks exState = [Category.company, Category.financial] ∧
    (∃ out evs, create_briefings exState true exBackend = .ok (out, evs) ∧
      briefingField out Category.revenue = some [] ∧
      briefingField out Category.industry = some [] ∧
      out.briefings.length ≤ 2) := by
  have curated_reset : ∀ (s : OrchState) (c : Category),
      curatedData { s with briefings := [] } c = curatedData s c := by
    intro s c
    cases c <;> rfl
  have main : ∀ (s : OrchState) (ho : Bool) (backend : Category → Except Unit Str)
      (out : OrchState) (evs : List Ev) (cat : Category),
      create_briefings s ho backend = .ok (out, evs) →
      curatedData s cat = [] →
      briefingField out cat = some [] ∧
      cat ∉ briefingTasks s ∧
      (∀ e ∈ evs, evCat e ≠ some cat) ∧
      (∀ x, (cat, x) ∉ out.briefings) := by
    intro s ho backend out evs cat h hempty
    unfold create_briefings at h
    rcases hsk : skipPass { s with briefings := [] } categoryOrder with ⟨s1, tasks⟩
    rw [hsk] at h
    simp only [] at h
    have hnotmem : cat ∉ tasks := by
      intro hmem
      have h1 : cat ∈ (skipPass { s with briefings := [] } categoryOrder).2 := by
        rw [hsk]; exact hmem
      have h2 := mem_skipPass_tasks categoryOrder _ cat h1
      rw [curated_reset] at h2
      exact h2 hempty
    have hfield1 : briefingField s1 cat = some [] := by
      have h1 := briefingField_skipPass_empty categoryOrder
        { s with briefings := [] } cat (by decide)
        (by cases cat <;> simp [categoryOrder])
        (by rw [curated_reset]; exact hempty)
      rw [hsk] at h1
      exact h1
    have hbr1 : s1.briefings = [] := by
      have h1 := briefings_skipPass categoryOrder { s with briefings := [] }
      rw [hsk] at h1
      exact h1
    have htasksEq : briefingTasks s = tasks := by
      unfold briefingTasks
      rw [hsk]
    split at h
    · cases h
    · rename_i t' evs' hp
      cases h
      obtain ⟨hf, hev, hbrf⟩ := processTasks_not_mem tasks ho backend s1 _ _ cat hp hnotmem
      refine ⟨?_, ?_, ?_, ?_⟩
      · rw [hf, hfield1]
      · rw [htasksEq]; exact hnotmem
      · intro e he
        rcases List.mem_append.mp he with h1 | h1
        · rw [mem_obsEvents h1]
          simp [evCat]
        · exact hev e h1
      · intro x hx
        have := hbrf x hx
        rw [hbr1] at this
        cases this
  refine ⟨main, rfl, ?_⟩
  have hsort9 : sortDocs [wDoc9] = .ok [wDoc9] := by
    have hp : assignScores [wDoc9] = .ok [(9, wDoc9)] := rfl
    simp [sortDocs, hp, Except.map]
  have hsort5 : sortDocs [wDoc5a] = .ok [wDoc5a] := by
    have hp : assignScores [wDoc5a] = .ok [(5, wDoc5a)] := rfl
    simp [sortDocs, hp, Except.map]
  have hskip : skipPass { exState with briefings := [] } categoryOrder =
      (exS1, [Category.company, Category.financial]) := rfl
  obtain ⟨⟨out0, evs0⟩, hp⟩ := processTasks_ok
    [Category.company, Category.financial] true exBackend exS1 (by
      intro c hc
      rcases List.mem_cons.mp hc with h1 | h1
      · subst h1
        exact ⟨[wDoc9], hsort9⟩
      · rcases List.mem_cons.mp h1 with h2 | h2
        · subst h2
          exact ⟨[wDoc5a], hsort5⟩
        · cases h2)
  have hEx : create_briefings exState true exBackend =
      .ok (out0, obsEvents true Ev.processing ++ evs0) := by
    unfold create_briefings
    rw [hskip]
    simp only []
    rw [hp]
  refine ⟨out0, obsEvents true Ev.processing ++ evs0, hEx, ?_, ?_, ?_⟩
  · exact (main exState true exBackend out0 _ Category.revenue hEx rfl).1
  · exact (main exState true exBackend out0 _ Category.industry hEx rfl).1
  · have h1 := processTasks_briefings_length
      [Category.company, Category.financial] true exBackend exS1 out0 evs0 hp
    have h2 : exS1.briefings = [] := rfl
    rw [h2] at h1
    simpa using h1

/-- Witness for C8's universally quantified part: apply it to the example
run and its empty revenue category. -/
theorem empty_categories_skipped_witness :
    (∃ out evs, create_briefings exState true exBackend = .ok (out, evs) ∧
      briefingField out Category.revenue = some [] ∧
      Category.revenue ∉ briefingTasks exState) := by
  obtain ⟨hmain, _htasks, out, evs, hEx, _hrev, _hind, _hlen⟩ :=
    empty_categories_skipped
  obtain ⟨h1, h2, _h3, _h4⟩ :=
    hmain exState true exBackend out evs Category.revenue hEx rfl
  exact ⟨out, evs, hEx, h1, h2⟩

theorem dropWhile_idem (p : Char → Bool) (l : Str) :
    (l.dropWhile p).dropWhile p = l.dropWhile p := by
  cases hd : l.dropWhile p with
  | nil => rfl
  | cons a t =>
    have h0 := List.head?_dropWhile_not p l
    rw [hd] at h0
    simp only [List.head?_cons] at h0
    rw [List.dropWhile_cons_of_neg]
    simp [h0]

theorem pyLTrim_idem (s : Str) : pyLTrim (pyLTrim s) = pyLTrim s :=
  dropWhile_idem isPySpace s

theorem pyRTrim_idem (s : Str) : pyRTrim (pyRTrim s) = pyRTrim s := by
  unfold pyRTrim
  rw [List.reverse_reverse, dropWhile_idem]

/-- `pyRTrim` only removes a (whitespace) tail. -/
theorem exists_pyRTrim_append (s : Str) : ∃ v, s = pyRTrim s ++ v := by
  refine ⟨(s.reverse.takeWhile isPySpace).reverse, ?_⟩
  have h1 : s.reverse.takeWhile isPySpace ++ s.reverse.dropWhile isPySpace = s.reverse :=
    List.takeWhile_append_dropWhile isPySpace s.reverse
  have h2 := congrArg List.reverse h1
  rw [List.reverse_append, List.reverse_reverse] at h2
  exact h2.symm

/-- Left-trimming is a no-op on a right-trimmed, already left-trimmed list. -/
theorem pyLTrim_pyRTrim (t : Str) (h : pyLTrim t = t) :
    pyLTrim (pyRTrim t) = pyRTrim t := by
  cases hr : pyRTrim t with
  | nil => rfl
  | cons a as =>
    obtain ⟨v, hv⟩ := exists_pyRTrim_append t
    rw [hr] at hv
    have hpa : isPySpace a = false := by
      by_cases hp : isPySpace a
      · exfalso
        have hdrop : t.dropWhile isPySpace = t := h
        rw [hv] at hdrop
        rw [List.cons_append, List.dropWhile_cons_of_pos hp] at hdrop
        have hlen := congrArg List.length hdrop
        have hle : (List.dropWhile isPySpace (as ++ v)).length ≤ (as ++ v).length :=
          (List.dropWhile_sublist _).length_le
        simp only [List.length_cons] at hlen
        omega
      · simpa using hp
    unfold pyLTrim
    rw [List.dropWhile_cons_of_neg]
    simp [hpa]

/-- `str.strip()` is idempotent: stripping an already stripped text
changes nothing. -/
theorem pyStrip_idem (s : Str) : pyStrip (pyStrip s) = pyStrip s := by
  unfold pyStrip
  rw [pyLTrim_pyRTrim (pyLTrim s) (pyLTrim_idem s), pyRTrim_idem]

/-! ### The Editor (`editor.py`) -/

/-- The slice of `ResearchState` read and written by the `Editor` node:
the four briefing fields, the report (top level and mirrored under the
`editor` sub-record), the status, and the message log.  References are
summarized by the `refText` parameter of `compile_content` (the output of
the external `format_references_section` collaborator, empty when the
state has no references). -/
structure EditorState where
  company : String
  company_briefing : Option Str
  industry_briefing : Option Str
  financial_briefing : Option Str
  revenue_briefing : Option Str
  report : Option Str
  editor_report : Option Str
  status : Option String
  messages : List String
  deriving DecidableEq

/-- The fixed iteration order of `briefing_keys` (`editor.py:67-72`):
company, industry, financial, revenue. -/
def editorBriefingOrder : List Category :=
  [Category.company, Category.industry, Category.financial, Category.revenue]

def editorBriefingField (s : EditorState) : Category → Option Str
  | .company => s.company_briefing
  | .industry => s.industry_briefing
  | .financial => s.financial_briefing
  | .revenue => s.revenue_briefing

def categoryName : Category → String
  | .company => "company"
  | .industry => "industry"
  | .financial => "financial"
  | .revenue => "revenue"

/-- Truthiness filter of `if content := state.get(key):` applied along a
category list. -/
def collectFrom (s : EditorState) : List Category → List (Category × Str)
  | [] => []
  | c :: rest =>
    match editorBriefingField s c with
    | some t => if t ≠ [] then (c, t) :: collectFrom s rest else collectFrom s rest
    | none => collectFrom s rest

/-- `individual_briefings` as collected at `editor.py:87-94`: the
briefings present and non-empty, in the fixed category order. -/
def collectBriefings (s : EditorState) : List (Category × Str) :=
  collectFrom s editorBriefingOrder

/-- `"\n\n".join(briefings.values())` (`editor.py:201`). -/
def blankSep : Str := "\n\n".toList

def combinedContent (bs : List (Category × Str)) : Str :=
  List.intercalate blankSep (bs.map Prod.snd)

/-- `Editor.compile_content` (`editor.py:199-282`): one non-streaming
backend call; on success the stripped response (with the rendered
reference section appended when present), on a raised backend error the
stripped concatenation of the input briefings — never a raise. -/
def compile_content (bs : List (Category × Str)) (refText : Str)
    (b : Except Unit Str) : Str :=
  let combined := combinedContent bs
  match b with
  | .ok raw =>
    let ini := pyStrip raw
    if refText ≠ [] then ini ++ blankSep ++ refText else ini
  | .error _ => pyStrip combined

/-- `Editor.content_sweep` (`editor.py:284-401`): a streaming backend
call; `.ok chunks` is the sequence of delivered text fragments, `.error`
a raise at any point of the stream.  Returns the accumulated text
stripped, or, on any backend error, the input stripped — never a raise. -/
def content_sweep (content : Str) (b : Except Unit (List Str)) : Str :=
  match b with
  | .ok chunks => pyStrip (List.flatten chunks)
  | .error _ => pyStrip content

/-- Backend behaviour for one editor run: the compile call and the
streaming sweep call. -/
structure EditorBehavior where
  compileCall : Except Unit Str
  sweepCall : Except Unit (List Str)

/-- Both backend calls raise. -/
def failingBehavior : EditorBehavior := ⟨.error (), .error ()⟩

/-- `Editor.edit_report` (`editor.py:111-197`): compile, bail out with
`""` on an empty compilation, sweep, bail out with `""` on a blank final
report, otherwise store the report (top-level, status, and under the
`editor` sub-record) and return it. -/
def edit_report (s : EditorState) (bs : List (Category × Str)) (refText : Str)
    (b : EditorBehavior) : EditorState × Str :=
  let edited := compile_content bs refText b.compileCall
  if edited = [] then (s, [])
  else
    let final0 := content_sweep edited b.sweepCall
    if pyStrip final0 = [] then (s, [])
    else
      ({ s with
          report := some final0,
          status := some ("editor_complete"),
          editor_report := some final0 }, final0)

/-- The message lines appended per category (`editor.py:87-94`). -/
def briefingMsgs (s : EditorState) : List String :=
  editorBriefingOrder.map (fun c =>
    match editorBriefingField s c with
    | some t =>
      if t ≠ [] then
        "Found " ++ categoryName c ++ " briefing (" ++ toString t.length ++ " characters)"
      else "No " ++ categoryName c ++ " briefing available"
    | none => "No " ++ categoryName c ++ " briefing available")

/-- `Editor.compile_briefings` (`editor.py:34-109`): collect the
briefings, run `edit_report` when any exist (its failures are caught and
only logged), and append one joined log message to the state. -/
def compile_briefings (s : EditorState) (refText : Str) (b : EditorBehavior) :
    EditorState :=
  let bs := collectBriefings s
  let msgLines :=
    (("📑 Compiling final report for " ++ s.company ++ "...") :: briefingMsgs s) ++
      (if bs.isEmpty then ["\n⚠️ No briefing sections available to compile"] else [])
  let joined := String.intercalate "\n" msgLines
  if bs.isEmpty then { s with messages := s.messages ++ [joined] }
  else
    let s1 := (edit_report s bs refText b).1
    { s1 with messages := s1.messages ++ [joined] }

/-- `Editor.run` (`editor.py:403-410`): after compiling, mirror a present
top-level report under the `editor` sub-record. -/
def editorRun (s : EditorState) (refText : Str) (b : EditorBehavior) : EditorState :=
  let s1 := compile_briefings s refText b
  match s1.report with
  | some r => { s1 with editor_report := some r }
  | none => s1

/-- The collected briefings keep the fixed category order: their
category tags form a sublist of the iteration order. -/
theorem collectFrom_fst_sublist (s : EditorState) : ∀ (l : List Category),
    List.Sublist ((collectFrom s l).map Prod.fst) l
  | [] => List.Sublist.slnil
  | c :: rest => by
    simp only [collectFrom]
    cases hf : editorBriefingField s c with
    | none => exact List.Sublist.cons c (collectFrom_fst_sublist s rest)
    | some t =>
      simp only []
      by_cases ht : t ≠ []
      · rw [if_pos ht]
        simp only [List.map_cons]
        exact List.Sublist.cons₂ c (collectFrom_fst_sublist s rest)
      · rw [if_neg ht]
        exact List.Sublist.cons c (collectFrom_fst_sublist s rest)

/--
**C6 (amended).** If the completion backend raises during the Compiler's
single call, the Compiler does not raise and returns the *whitespace-
stripped* concatenation of the available briefing texts, joined by blank
lines in the fixed category order (company, industry, financial,
revenue) — `(combined_content or "").strip()`, not the byte-identical
raw concatenation (see the counterexample theorem).
-/
theorem compiler_fallback (s : EditorState) (refText : Str) :
    compile_content (collectBriefings s) refText (.error ()) =
      pyStrip (combinedContent (collectBriefings s)) ∧
    List.Sublist ((collectBriefings s).map Prod.fst) editorBriefingOrder :=
  ⟨rfl, collectFrom_fst_sublist s editorBriefingOrder⟩

/-- A state whose single available briefing ends in a newline. -/
def trailingState : EditorState :=
  { company := "X", company_briefing := some ("a\n".toList),
    industry_briefing := none, financial_briefing := none,
    revenue_briefing := none, report := none, editor_report := none,
    status := none, messages := [] }

/-- **C6 (counterexample).** With one briefing `"a\n"`, the raw
concatenation is `"a\n"` but the Compiler's fallback is the stripped
`"a"`: the fallback does not equal the raw concatenation. -/
theorem compiler_fallback_not_raw :
    collectBriefings trailingState = [(Category.company, "a\n".toList)] ∧
    compile_content (collectBriefings trailingState) [] (.error ()) = "a".toList ∧
    compile_content (collectBriefings trailingState) [] (.error ()) ≠
      combinedContent (collectBriefings trailingState) := by
  refine ⟨rfl, rfl, ?_⟩
  decide

/--
**C7 (amended).** If the completion backend raises during the
Normalizer's streaming call, the Normalizer does not raise and returns
the compiled input document *stripped of surrounding whitespace*
(`(content or "").strip()`), not byte-identically unchanged (see the
counterexample theorem); in particular any already-stripped input is
returned unchanged.
-/
theorem normalizer_fallback (content : Str) :
    content_sweep content (.error ()) = pyStrip content ∧
    content_sweep (pyStrip content) (.error ()) = pyStrip content :=
  ⟨rfl, pyStrip_idem content⟩

/-- **C7 (counterexample).** On the input `"a\n"` the failing-backend
fallback returns `"a"`, not the input unchanged. -/
theorem normalizer_fallback_changes_input :
    content_sweep ("a\n".toList) (.error ()) = "a".toList ∧
    content_sweep ("a\n".toList) (.error ()) ≠ "a\n".toList := by
  refine ⟨rfl, ?_⟩
  decide

theorem edit_report_messages (s : EditorState) (bs : List (Category × Str))
    (refText : Str) (b : EditorBehavior) :
    (edit_report s bs refText b).1.messages = s.messages := by
  unfold edit_report
  simp only []
  split
  · rfl
  · split
    · rfl
    · rfl

/-- `edit_report` either leaves the state alone or stores a non-blank
report, mirrored under the `editor` sub-record. -/
theorem edit_report_report (s : EditorState) (bs : List (Category × Str))
    (refText : Str) (b : EditorBehavior) :
    (edit_report s bs refText b).1.report = s.report ∨
    ∃ r, (edit_report s bs refText b).1.report = some r ∧ pyStrip r ≠ [] ∧
      (edit_report s bs refText b).1.editor_report = some r := by
  unfold edit_report
  simp only []
  split
  · exact Or.inl rfl
  · split
    · exact Or.inl rfl
    · rename_i h1 h2
      exact Or.inr ⟨_, rfl, h2, rfl⟩

/-- With both backend calls failing, `edit_report` either bails out with
the state unchanged or stores the degraded fallback report. -/
theorem edit_report_failing (s : EditorState) (bs : List (Category × Str))
    (refText : Str) :
    (edit_report s bs refText failingBehavior).1 = s ∨
    (edit_report s bs refText failingBehavior).1 =
      { s with
          report := some (pyStrip (combinedContent bs)),
          status := some ("editor_complete"),
          editor_report := some (pyStrip (combinedContent bs)) } := by
  unfold edit_report
  simp only []
  have hcc : compile_content bs refText failingBehavior.compileCall =
      pyStrip (combinedContent bs) := rfl
  rw [hcc]
  by_cases he : pyStrip (combinedContent bs) = []
  · rw [if_pos he]
    exact Or.inl rfl
  · rw [if_neg he]
    have hcs : content_sweep (pyStrip (combinedContent bs)) failingBehavior.sweepCall =
        pyStrip (combinedContent bs) := pyStrip_idem _
    rw [hcs, pyStrip_idem, if_neg he]
    exact Or.inr rfl

theorem compile_briefings_messages (s : EditorState) (refText : Str)
    (b : EditorBehavior) :
    (compile_briefings s refText b).messages.length = s.messages.length + 1 := by
  unfold compile_briefings
  simp only []
  split
  · simp
  · have h := edit_report_messages s (collectBriefings s) refText b
    simp [h]

theorem compile_briefings_report (s : EditorState) (refText : Str)
    (b : EditorBehavior) :
    (compile_briefings s refText b).report = s.report ∨
    ∃ r, (compile_briefings s refText b).report = some r ∧ pyStrip r ≠ [] := by
  unfold compile_briefings
  simp only []
  split
  · exact Or.inl rfl
  · rcases edit_report_report s (collectBriefings s) refText b with h | ⟨r, h1, h2, _⟩
    · exact Or.inl h
    · exact Or.inr ⟨r, h1, h2⟩

theorem compile_briefings_report_failing (s : EditorState) (refText : Str) :
    (compile_briefings s refText failingBehavior).report = s.report ∨
    (compile_briefings s refText failingBehavior).report =
      some (pyStrip (combinedContent (collectBriefings s))) := by
  unfold compile_briefings
  simp only []
  split
  · exact Or.inl rfl
  · rcases edit_report_failing s (collectBriefings s) refText with h | h
    · refine Or.inl ?_
      show (edit_report s (collectBriefings s) refText failingBehavior).1.report = s.report
      rw [h]
    · refine Or.inr ?_
      show (edit_report s (collectBriefings s) refText failingBehavior).1.report = _
      rw [h]

theorem editorRun_report (s : EditorState) (refText : Str) (b : EditorBehavior) :
    (editorRun s refText b).report = (compile_briefings s refText b).report := by
  unfold editorRun
  simp only []
  split
  · rfl
  · rfl

theorem editorRun_messages (s : EditorState) (refText : Str) (b : EditorBehavior) :
    (editorRun s refText b).messages = (compile_briefings s refText b).messages := by
  unfold editorRun
  simp only []
  split
  · rfl
  · rfl

/--
**C9.** Even when every compilation and normalization backend call
raises, the Editor stage still returns a state rather than raising
(`editorRun` is total, every backend failure being caught internally):
exactly one descriptive log message is appended, and the report field is
either left as it was (nothing to compile, or a blank fallback) or set
to the degraded fallback report — the stripped concatenation of the
available briefings.
-/
theorem editor_never_aborts (s : EditorState) (refText : Str) :
    (editorRun s refText failingBehavior).messages.length =
      s.messages.length + 1 ∧
    ((editorRun s refText failingBehavior).report = s.report ∨
      (editorRun s refText failingBehavior).report =
        some (pyStrip (combinedContent (collectBriefings s)))) := by
  constructor
  · rw [editorRun_messages]
    exact compile_briefings_messages s refText failingBehavior
  · rw [editorRun_report]
    exact compile_briefings_report_failing s refText

/--
**C10 (amended).** After `Editor.run`, whenever the state contains a
report its value is mirrored under the `editor` sub-record
(`state['editor']['report'] = state['report']`); and *provided the input
state carried no pre-existing report*, a present report is non-blank
(non-empty after stripping).  An input state that already holds a blank
report keeps it through a failed run (see the counterexample theorem).
-/
theorem report_nonblank_and_mirrored (s : EditorState) (refText : Str)
    (b : EditorBehavior) :
    (s.report = none →
      ∀ r, (editorRun s refText b).report = some r → pyStrip r ≠ []) ∧
    (∀ r, (editorRun s refText b).report = some r →
      (editorRun s refText b).editor_report = some r) := by
  constructor
  · intro hnone r hr
    rw [editorRun_report] at hr
    rcases compile_briefings_report s refText b with h | ⟨r0, h1, h2⟩
    · rw [hnone] at h
      rw [h] at hr
      cases hr
    · rw [h1] at hr
      cases hr
      exact h2
  · intro r hr
    revert hr
    unfold editorRun
    simp only []
    split
    · rename_i r0 hr0
      intro hr
      have : r0 = r := by
        have h2 : (compile_briefings s refText b).report = some r := hr
        rw [hr0] at h2
        exact Option.some.inj h2
      rw [← this]
    · rename_i hr0
      intro hr
      have h2 : (compile_briefings s refText b).report = some r := hr
      rw [hr0] at h2
      cases h2

/-- A pipeline state that already carries a blank report and no
briefings. -/
def blankReportState : EditorState :=
  { company := "X", company_briefing := none, industry_briefing := none,
    financial_briefing := none, revenue_briefing := none,
    report := some [], editor_report := none, status := none, messages := [] }

/-- **C10 (counterexample).** On an input state whose report key is
already present and blank, `Editor.run` (with nothing to compile and a
failing backend) returns a state that still contains the blank report:
"whenever the state contains a report key its value is non-blank" is
false. -/
theorem editor_keeps_blank_report :
    (editorRun blankReportState [] failingBehavior).report = some [] ∧
    pyStrip [] = [] :=
  ⟨rfl, rfl⟩

/-- A state with one briefing and no pre-existing report, and a backend
that compiles to `"raw"` and streams the single chunk `"final."`. -/
def wEditorState : EditorState :=
  { company := "X", company_briefing := some ("hello".toList),
    industry_briefing := none, financial_briefing := none,
    revenue_briefing := none, report := none, editor_report := none,
    status := none, messages := [] }

def wBehavior : EditorBehavior := ⟨.ok ("raw".toList), .ok ["final.".toList]⟩

/-- Witness for the amended C10 on a concrete successful run. -/
theorem report_nonblank_and_mirrored_witness :
    pyStrip ("final.".toList) ≠ [] ∧
    (editorRun wEditorState [] wBehavior).editor_report = some ("final.".toList) := by
  obtain ⟨h1, h2⟩ := report_nonblank_and_mirrored wEditorState [] wBehavior
  have hrep : (editorRun wEditorState [] wBehavior).report = some ("final.".toList) := rfl
  exact ⟨h1 rfl _ hrep, h2 _ hrep⟩

end DeepResearch
